import Mathlib

/-!
Verification development for the bracket-matching engine of
`pyzo/codeeditor/extensions/appearance.py`.

Positions follow the source's convention: a bracket occurrence at character
index `i` of the plain text is identified by the cursor position `i + 1`
(the position directly to the right of the character), which is exactly the
value yielded by both iterator classes. Positions are modelled as `Int`
because the plain-text backward iterator can report non-positive positions
(Python negative indexing wraps around the start of the text).
-/

/-- Mirrors `HighlightMatchingBracket._BRACKS_OPEN = "([{"`. -/
def BRACKS_OPEN : List Char := ['(', '[', '{']

/-- Mirrors `HighlightMatchingBracket._BRACKS_CLOSE = ")]}"`. -/
def BRACKS_CLOSE : List Char := [')', ']', '}']

/-- Mirrors `HighlightMatchingBracket._BRACKS = _BRACKS_OPEN + _BRACKS_CLOSE`. -/
def BRACKS : List Char := BRACKS_OPEN ++ BRACKS_CLOSE

/-- Mirrors `_matchingBrackets = dict(zip("([{" + ")]}", ")]}" + "([{"))`:
each of the six bracket glyphs is mapped to its partner.  The dictionary has
no other keys (a lookup with any other character would be a `KeyError`); the
total function returns its argument unchanged outside the six glyphs, a case
the scan never reaches because stack entries always come from `BRACKS`. -/
def matchingBrackets (c : Char) : Char :=
  if c = '(' then ')'
  else if c = '[' then ']'
  else if c = '{' then '}'
  else if c = ')' then '('
  else if c = ']' then '['
  else if c = '}' then '{'
  else c

/-- Mirrors the `_MatchStatus` enum. -/
inductive MatchStatus where
  | NoMatch
  | Match
  | MisMatch
deriving DecidableEq, Repr

/-- Mirrors the `_MatchResult` class: a status plus the optional
`corresponding` and `offending` positions (both default to `None`). -/
structure MatchResult where
  status : MatchStatus
  corresponding : Option Int := none
  offending : Option Int := none
deriving DecidableEq, Repr

/-- The two failure modes of the engine: the `_ParenNotFound` exception
raised by `_ParenIterator.__init__`, and the
`ValueError("invalid bracket character: ...")` raised by
`_findMatchingBracket` on a non-bracket start character. -/
inductive BracketError where
  | ParenNotFound
  | InvalidBracketCharacter
deriving DecidableEq, Repr

/-- Mirrors the direction/role selection at the top of
`_findMatchingBracket`: a closing bracket scans backward with closing
brackets stacking; an opening bracket scans forward with opening brackets
stacking; anything else raises `ValueError`.  Returns
`(direction, stacking, unstacking)`. -/
def selectDirection (char : Char) : Except BracketError (Int × List Char × List Char) :=
  if char ∈ BRACKS_CLOSE then .ok (-1, BRACKS_CLOSE, BRACKS_OPEN)
  else if char ∈ BRACKS_OPEN then .ok (1, BRACKS_OPEN, BRACKS_CLOSE)
  else .error .InvalidBracketCharacter

/-- Mirrors the `for paren, pos in our_iterator(...)` loop of
`_findMatchingBracket`.  The stack is a list with its top at the head
(Python appends/pops at the right of `stacked_paren`; `stacked_paren[-1]`
is the head here).  The result is `none` exactly when the Python code
would raise `IndexError` by reading `stacked_paren[-1]` from an empty
stack; `some r` corresponds to returning the `_MatchResult` `r`. -/
def scanLoop (stacking unstacking : List Char) :
    List (Char × Int) → List (Char × Int) → Option MatchResult
  | _stack, [] => some { status := .NoMatch }
  | stack, (paren, pos) :: rest =>
    if paren ∈ stacking then
      -- `stacked_paren.append((paren, pos))`, then the emptiness check
      if ((paren, pos) :: stack) = [] then some { status := .Match, corresponding := some pos }
      else scanLoop stacking unstacking ((paren, pos) :: stack) rest
    else if paren ∈ unstacking then
      match stack with
      | [] => none
      | (c, p) :: s =>
        if matchingBrackets c ≠ paren then
          some { status := .MisMatch, corresponding := some pos, offending := some p }
        else if s = [] then some { status := .Match, corresponding := some pos }
        else scanLoop stacking unstacking s rest
    else
      if stack = [] then some { status := .Match, corresponding := some pos }
      else scanLoop stacking unstacking stack rest

/-- Python sequence indexing `fulltext[p]` as used by
`_PlainTextParenIterator.__next__`: non-negative indices below the length
are read directly, indices in `[-len, -1]` wrap around to the end of the
sequence, and anything else raises `IndexError` (modelled as `none`). -/
def pyGet (ft : List Char) (p : Int) : Option Char :=
  if p < -(ft.length : Int) then none
  else if p < 0 then ft[(p + ft.length).toNat]?
  else ft[p.toNat]?

/-- One faithful transcription of repeated calls to
`_PlainTextParenIterator.__next__`, collecting all yielded
`(character, position)` pairs.  `p` is the value of `self.position` when the
text is about to be examined (i.e. after the `self.position += self.direction`
at the top of `__next__`).  Reading out of range raises `IndexError`
(`StopIteration`); a bracket character is yielded as `(char, position + 1)`
and the walk continues; after skipping a non-bracket character the iterator
stops as soon as the position becomes negative.  The `fuel` argument is a
structural bound only: `plainParenScan_fuel_stable_fwd` and
`plainParenScan_fuel_stable_bwd` below show that any fuel at least as large
as the remaining walk yields the same list, and the fuel baked into
`plainTextParenEvents` always is. -/
def plainParenScan (ft : List Char) (direction : Int) : Nat → Int → List (Char × Int)
  | 0, _ => []
  | fuel + 1, p =>
    match pyGet ft p with
    | none => []
    | some c =>
      if c ∈ BRACKS then (c, p + 1) :: plainParenScan ft direction fuel (p + direction)
      else if p + direction < 0 then []
      else plainParenScan ft direction fuel (p + direction)

/-- The full event sequence produced by a `_PlainTextParenIterator`
constructed from a cursor at `cursorPos`: `self.position` starts at
`cursorPos - 1` and the first `__next__` moves it one step in `direction`
before examining the text. -/
def plainTextParenEvents (ft : List Char) (cursorPos direction : Int) : List (Char × Int) :=
  plainParenScan ft direction (2 * ft.length + cursorPos.natAbs + 4) (cursorPos - 1 + direction)

/-- `_findMatchingBracket` when the plain-text iterator strategy is selected
(no parser configured).  `cursorPos` is `cursor.position()`, the position
directly to the right of the queried character `char`. -/
def findMatchingBracketPlain (char : Char) (ft : List Char) (cursorPos : Int) :
    Except BracketError (Option MatchResult) :=
  match selectDirection char with
  | .error e => .error e
  | .ok (direction, stacking, unstacking) =>
    .ok (scanLoop stacking unstacking [(char, cursorPos)]
      (plainTextParenEvents ft cursorPos direction))

example : findMatchingBracketPlain '(' ['(', ']'] 1 =
    .ok (some { status := .MisMatch, corresponding := some 2, offending := some 1 }) := rfl

example : findMatchingBracketPlain '(' ['(', ')'] 1 =
    .ok (some { status := .Match, corresponding := some 2 }) := rfl

example : findMatchingBracketPlain ')' ['(', ')'] 2 =
    .ok (some { status := .Match, corresponding := some 1 }) := rfl

example : findMatchingBracketPlain '(' ['('] 1 = .ok (some { status := .NoMatch }) := rfl

example : findMatchingBracketPlain ')' [')', '('] 1 =
    .ok (some { status := .Match, corresponding := some 0 }) := rfl

/-- Modelled from the spec: the `ParenthesisToken`s produced by the lexer
(module `pyzo.codeeditor.parsers.tokens`, not part of the sources here) as
consumed by `_ParenIterator`.  Per spec §3, a `LexicalToken` carries a
bracket character class (`token._style` in `_ParenIterator.__next__`) and an
end offset within its line (`token.end`, compared against
`cursor.positionInBlock()`). -/
structure Token where
  style : Char
  end_ : Nat
deriving DecidableEq, Repr

/-- Modelled from the spec: one document line (a `QTextBlock`) with its raw
text and its attached per-line token metadata.  `tokens = none` models a
block whose `userData()` carries no token list (the `AttributeError` branch
of `_ParenIterator._getParenTokens`); `some ts` models stored tokens, with
`ts` already restricted to the `ParenthesisToken`s. -/
structure Line where
  text : List Char
  tokens : Option (List Token)
deriving DecidableEq, Repr

/-- Mirrors `_ParenIterator._getParenTokens`: the stored bracket tokens of a
block, or `[]` when the block has no stored token data. -/
def parenTokens (l : Line) : List Token := l.tokens.getD []

/-- `block.position()` of the line following the given lines: every line
contributes its text length plus one (the newline / paragraph separator). -/
def blockPosition (before : List Line) : Nat :=
  (before.map (fun l => l.text.length + 1)).sum

/-- The `(token._style, block.position() + token.end)` pairs yielded for a
run of tokens of one block whose `block.position()` is `base`. -/
def tokenEvents (base : Nat) (ts : List Token) : List (Char × Int) :=
  ts.map (fun t => (t.style, ((base + t.end_ : Nat) : Int)))

/-- All events contributed by a list of consecutive lines, in document
order, where the first line starts at position `base`.  Lines whose stored
bracket-token list is absent or empty contribute nothing and iteration
passes through them (`_ParenIterator.__next__`). -/
def linesEvents : Nat → List Line → List (Char × Int)
  | _, [] => []
  | base, l :: rest =>
    tokenEvents base (parenTokens l) ++ linesEvents (base + l.text.length + 1) rest

/-- `_findMatchingBracket` when the tokenized iterator strategy is selected.
The document is `before ++ [line] ++ after` and the cursor sits in `line` at
offset `posInBlock` (`cursor.positionInBlock()`), directly to the right of
the queried character `char`.  `_ParenIterator.__init__` looks for the first
stored bracket token of the start line whose `end` equals `posInBlock`;
failure raises `_ParenNotFound`.  Iteration then walks the token lists away
from that token: forward over the rest of the start line then the following
lines, or backward over the earlier tokens of the start line then the
preceding lines (each traversed from its last token to its first), stopping
at the document boundary. -/
def findMatchingBracketTok (char : Char) (before : List Line) (line : Line)
    (after : List Line) (posInBlock : Nat) : Except BracketError (Option MatchResult) :=
  match selectDirection char with
  | .error e => .error e
  | .ok (direction, stacking, unstacking) =>
    let toks := parenTokens line
    match toks.findIdx? (fun t => t.end_ = posInBlock) with
    | none => .error .ParenNotFound
    | some k =>
      let base := blockPosition before
      let events :=
        if direction = 1 then
          tokenEvents base (toks.drop (k + 1)) ++
            linesEvents (base + line.text.length + 1) after
        else
          (linesEvents 0 before ++ tokenEvents base (toks.take k)).reverse
      .ok (scanLoop stacking unstacking [(char, ((base + posInBlock : Nat) : Int))] events)

/-- Mirrors the three bracket highlight style elements of
`HighlightMatchingBracket`: `MatchedPair` is
`editor.highlightMatchingBracket`, `Unmatched` is
`editor.highlightUnmatchedBracket`, and `MismatchedPair` is
`editor.highlightMisMatchingBracket`. -/
inductive HighlightClass where
  | MatchedPair
  | Unmatched
  | MismatchedPair
deriving DecidableEq, Repr

/-- Mirrors the highlight decision logic of
`HighlightMatchingBracket.paintEvent` (the `_highlightSingleChar` calls made
for a given `_MatchResult`): the returned list holds the highlighted
positions in drawing order.  `startPos` is `cursor.position()` at the query,
`hlMis` is `highlightMisMatchingBracket()`.  `none` models the crash that
reading an absent `corresponding`/`offending` position would cause; results
produced by the scan always carry the positions their status requires. -/
def decideHighlights (res : MatchResult) (startPos : Int) (hlMis : Bool) :
    Option (List (Int × HighlightClass)) :=
  match res.status with
  | .NoMatch => some [(startPos, .Unmatched)]
  | .Match =>
    match res.corresponding with
    | none => none
    | some corr => some [(startPos, .MatchedPair), (corr, .MatchedPair)]
  | .MisMatch =>
    match res.corresponding, res.offending with
    | some corr, some off =>
      some ((if startPos ≠ off ∨ hlMis = false then [(startPos, .Unmatched)] else []) ++
        (if hlMis then [(corr, .MismatchedPair), (off, .MismatchedPair)] else []))
    | _, _ => none

/-- The highlighting a single `paintEvent` query produces in tokenized mode:
`_findMatchingBracket` is called inside `try: ... except _ParenNotFound:
pass`, so a `_ParenNotFound` yields no highlights (`some []`), while any
other failure escapes the handler (`none`). -/
def paintHighlightsTok (char : Char) (before : List Line) (line : Line)
    (after : List Line) (posInBlock : Nat) (hlMis : Bool) :
    Option (List (Int × HighlightClass)) :=
  match findMatchingBracketTok char before line after posInBlock with
  | .error .ParenNotFound => some []
  | .error .InvalidBracketCharacter => none
  | .ok none => none
  | .ok (some res) => decideHighlights res ((blockPosition before + posInBlock : Nat) : Int) hlMis

example : findMatchingBracketTok ')' [] ⟨[')', '('], some [⟨')', 1⟩, ⟨'(', 2⟩]⟩ [] 1 =
    .ok (some { status := .NoMatch }) := rfl

example : findMatchingBracketTok '(' [] ⟨['(', ')'], some [⟨'(', 1⟩, ⟨')', 2⟩]⟩ [] 1 =
    .ok (some { status := .Match, corresponding := some 2 }) := rfl

example : findMatchingBracketTok '{'
    [⟨['{'], some [⟨'{', 1⟩]⟩] ⟨['x'], some []⟩ [⟨['}'], some [⟨'}', 1⟩]⟩] 1 =
    .error .ParenNotFound := rfl

example : findMatchingBracketTok '{'
    [] ⟨['{'], some [⟨'{', 1⟩]⟩ [⟨['x'], some []⟩, ⟨['}'], some [⟨'}', 1⟩]⟩] 1 =
    .ok (some { status := .Match, corresponding := some 5 }) := rfl

/-- Membership in `BRACKS_OPEN` pins the character down to one of three
glyphs; this records the facts about it and its partner that the scan-loop
lemmas need. -/
lemma open_bracket_facts {o : Char} (ho : o ∈ BRACKS_OPEN) :
    matchingBrackets o ∈ BRACKS_CLOSE ∧ matchingBrackets o ∉ BRACKS_OPEN ∧
      o ∉ BRACKS_CLOSE ∧ matchingBrackets (matchingBrackets o) = o ∧ o ∈ BRACKS := by
  simp only [BRACKS_OPEN, List.mem_cons, List.not_mem_nil, or_false] at ho
  rcases ho with rfl | rfl | rfl <;> decide

/-- C2 helper facts are shared with the balanced-scan lemmas below. -/
lemma open_not_close {o : Char} (ho : o ∈ BRACKS_OPEN) : o ∉ BRACKS_CLOSE :=
  (open_bracket_facts ho).2.2.1

lemma close_not_open {c : Char} (hc : c ∈ BRACKS_CLOSE) : c ∉ BRACKS_OPEN := by
  simp only [BRACKS_CLOSE, List.mem_cons, List.not_mem_nil, or_false] at hc
  rcases hc with rfl | rfl | rfl <;> decide

/-- C2: as soon as the iterator produces a character of the unstacking set
that is not the exact partner of the top-of-stack character, the scan
returns at once — for every remaining event list `rest`, so no further
iterator event is consumed — with a `MisMatch` whose `corresponding`
position is the position of the bracket actually encountered and whose
`offending` position is the position stored at the top of the stack. -/
theorem scanLoop_mismatch_immediate (stacking unstacking : List Char) (c : Char)
    (p : Int) (s : List (Char × Int)) (paren : Char) (pos : Int)
    (rest : List (Char × Int)) (h1 : paren ∉ stacking) (h2 : paren ∈ unstacking)
    (h3 : matchingBrackets c ≠ paren) :
    scanLoop stacking unstacking ((c, p) :: s) ((paren, pos) :: rest) =
      some { status := .MisMatch, corresponding := some pos, offending := some p } := by
  simp [scanLoop, h1, h2, h3]

/-- Witness for C2: querying `(` in `"(]"` — the event `(']', 2)` is
unstacking but not the partner of the `'('` on the stack, so the scan stops
with `MisMatch(corresponding = 2, offending = 1)` whatever follows. -/
theorem scanLoop_mismatch_immediate_witness :
    (']' ∉ BRACKS_OPEN ∧ ']' ∈ BRACKS_CLOSE ∧ matchingBrackets '(' ≠ ']') ∧
      scanLoop BRACKS_OPEN BRACKS_CLOSE [('(', 1)] [(']', 2), ('{', 3)] =
        some { status := .MisMatch, corresponding := some 2, offending := some 1 } :=
  ⟨by decide, scanLoop_mismatch_immediate BRACKS_OPEN BRACKS_CLOSE '(' 1 [] ']' 2
    [('{', 3)] (by decide) (by decide) (by decide)⟩

/-- C3 counterexample: for the document `"(]"`, querying `(` does yield a
`MisMatch`, but its `offending` field is `1` — the position of `(`, the
top-of-stack bracket — and not `2`, the position of `]`, contrary to the
claim that the offending position identifies the bracket that violated the
expected family. -/
theorem misMatch_field_order_counterexample :
    findMatchingBracketPlain '(' ['(', ']'] 1 =
      .ok (some { status := .MisMatch, corresponding := some 2, offending := some 1 }) ∧
    (1 : Int) ≠ 2 :=
  ⟨rfl, by decide⟩

/-- C3 (amended): for the document `"(]"`, querying `(` yields a `MisMatch`
whose `corresponding` position is `2`, the position of the offending-family
bracket `]` actually encountered, and whose `offending` position is `1`, the
position of the bracket at the top of the stack (the queried `(` that should
have been matched). -/
theorem misMatch_field_order :
    findMatchingBracketPlain '(' ['(', ']'] 1 =
      .ok (some { status := .MisMatch, corresponding := some 2, offending := some 1 }) := rfl

/-- C5: the highlight decision logic realises exactly the table of spec
§4.3; in particular, when mismatch highlighting is enabled and the queried
position coincides with the `offending` position, no separate `Unmatched`
mark is drawn at the start. -/
theorem highlight_decision_table (p corr off start : Int) (hlMis : Bool) :
    decideHighlights { status := .NoMatch } start hlMis = some [(start, .Unmatched)] ∧
    decideHighlights { status := .Match, corresponding := some p } start hlMis =
      some [(start, .MatchedPair), (p, .MatchedPair)] ∧
    decideHighlights { status := .MisMatch, corresponding := some corr, offending := some off }
        start false = some [(start, .Unmatched)] ∧
    decideHighlights { status := .MisMatch, corresponding := some corr, offending := some off }
        off true = some [(corr, .MismatchedPair), (off, .MismatchedPair)] ∧
    (start ≠ off →
      decideHighlights { status := .MisMatch, corresponding := some corr, offending := some off }
        start true =
        some [(start, .Unmatched), (corr, .MismatchedPair), (off, .MismatchedPair)]) := by
  refine ⟨rfl, rfl, by simp [decideHighlights], by simp [decideHighlights], fun h => ?_⟩
  simp [decideHighlights, h]

/-- Witness for C5: the table evaluated at concrete positions, with the
`start ≠ off` hypothesis of the last row discharged at `2 ≠ 7`. -/
theorem highlight_decision_table_witness :
    decideHighlights { status := .NoMatch } 2 true = some [(2, .Unmatched)] ∧
    decideHighlights { status := .Match, corresponding := some 5 } 2 true =
      some [(2, .MatchedPair), (5, .MatchedPair)] ∧
    decideHighlights { status := .MisMatch, corresponding := some 3, offending := some 7 }
        2 false = some [(2, .Unmatched)] ∧
    decideHighlights { status := .MisMatch, corresponding := some 3, offending := some 7 }
        7 true = some [(3, .MismatchedPair), (7, .MismatchedPair)] ∧
    decideHighlights { status := .MisMatch, corresponding := some 3, offending := some 7 }
        2 true = some [(2, .Unmatched), (3, .MismatchedPair), (7, .MismatchedPair)] := by
  have h := highlight_decision_table 5 3 7 2 true
  exact ⟨h.1, h.2.1, (highlight_decision_table 5 3 7 2 false).2.2.1, h.2.2.2.1,
    h.2.2.2.2 (by decide)⟩

/-- C6 (code bug): for the one-character document `")"`, the plain-text
backward iterator does not terminate upon reaching the document start;
instead the initial step moves `self.position` to `-1` and
`fulltext[-1]` wraps around (Python negative indexing) to the end of the
text, re-yielding the very bracket occurrence being queried, reported at the
bogus position `0`. -/
theorem backward_iterator_wraps_past_start :
    plainTextParenEvents [')'] 1 (-1) = [(')', 0)] := rfl

/-- C7 (code bug): one fully tokenized line `")("` with no string or comment
content.  Querying `)` at position 1 under the tokenized strategy finds no
event before the document start and returns `NoMatch`; under the plain-text
fallback the backward iterator wraps around to the end of the text and
returns `Match` at the bogus position `0`, so the two strategies disagree. -/
theorem fallback_tokenized_divergence :
    findMatchingBracketTok ')' [] ⟨[')', '('], some [⟨')', 1⟩, ⟨'(', 2⟩]⟩ [] 1 =
      .ok (some { status := .NoMatch }) ∧
    findMatchingBracketPlain ')' [')', '('] 1 =
      .ok (some { status := .Match, corresponding := some 0 }) ∧
    MatchStatus.NoMatch ≠ MatchStatus.Match :=
  ⟨rfl, rfl, by decide⟩

/-- C9: a start character that is none of the six bracket glyphs makes both
the direction selection and the whole matching query fail with
`InvalidBracketCharacter` — no `MatchStatus` is ever produced — while each
closing glyph selects the backward direction (closing brackets stacking) and
each opening glyph the forward direction (opening brackets stacking). -/
theorem invalid_bracket_character (c : Char) (hc : c ∉ BRACKS) (ft : List Char)
    (cursorPos : Int) :
    selectDirection c = .error .InvalidBracketCharacter ∧
    findMatchingBracketPlain c ft cursorPos = .error .InvalidBracketCharacter ∧
    selectDirection ')' = .ok (-1, BRACKS_CLOSE, BRACKS_OPEN) ∧
    selectDirection ']' = .ok (-1, BRACKS_CLOSE, BRACKS_OPEN) ∧
    selectDirection '}' = .ok (-1, BRACKS_CLOSE, BRACKS_OPEN) ∧
    selectDirection '(' = .ok (1, BRACKS_OPEN, BRACKS_CLOSE) ∧
    selectDirection '[' = .ok (1, BRACKS_OPEN, BRACKS_CLOSE) ∧
    selectDirection '{' = .ok (1, BRACKS_OPEN, BRACKS_CLOSE) := by
  simp only [BRACKS, List.mem_append, not_or] at hc
  have hsel : selectDirection c = .error .InvalidBracketCharacter := by
    simp [selectDirection, hc.1, hc.2]
  exact ⟨hsel, by simp [findMatchingBracketPlain, hsel], rfl, rfl, rfl, rfl, rfl, rfl⟩

/-- Witness for C9: the letter `x` is not a bracket glyph and is rejected. -/
theorem invalid_bracket_character_witness :
    ('x' ∉ BRACKS) ∧ selectDirection 'x' = .error .InvalidBracketCharacter ∧
      findMatchingBracketPlain 'x' ['('] 1 = .error .InvalidBracketCharacter :=
  ⟨by decide, (invalid_bracket_character 'x' (by decide) ['('] 1).1,
    (invalid_bracket_character 'x' (by decide) ['('] 1).2.1⟩

/-- C8: in tokenized mode, when the start line has stored token data but no
stored bracket token ends at the queried offset (the queried character is
lexically inside a string or comment), iterator construction fails with
`_ParenNotFound`; `paintEvent` catches exactly this exception, so the query
emits no highlight pair and no error escapes. -/
theorem paren_not_found_suppressed (char : Char) (hc : char ∈ BRACKS)
    (before : List Line) (line : Line) (after : List Line) (posInBlock : Nat)
    (ts : List Token) (_hts : line.tokens = some ts)
    (hnone : (parenTokens line).findIdx? (fun t => t.end_ = posInBlock) = none)
    (hlMis : Bool) :
    findMatchingBracketTok char before line after posInBlock = .error .ParenNotFound ∧
    paintHighlightsTok char before line after posInBlock hlMis = some [] := by
  have hfind : findMatchingBracketTok char before line after posInBlock =
      .error .ParenNotFound := by
    simp only [BRACKS, List.mem_append] at hc
    rcases hc with hopen | hclose
    · simp [findMatchingBracketTok, selectDirection, open_not_close hopen, hopen, hnone]
    · simp [findMatchingBracketTok, selectDirection, hclose, hnone]
  exact ⟨hfind, by simp [paintHighlightsTok, hfind]⟩

/-- Witness for C8: a line `"')'"` whose only stored tokens are string
tokens (so its bracket-token list is empty): querying the `)` at offset 2
fails with `_ParenNotFound` and paints nothing. -/
theorem paren_not_found_suppressed_witness :
    (')' ∈ BRACKS) ∧
    (Line.tokens ⟨['\'', ')', '\''], some []⟩ = some []) ∧
    ((parenTokens ⟨['\'', ')', '\''], some []⟩).findIdx? (fun t => t.end_ = 2) = none) ∧
    findMatchingBracketTok ')' [] ⟨['\'', ')', '\''], some []⟩ [] 2 =
      .error .ParenNotFound ∧
    paintHighlightsTok ')' [] ⟨['\'', ')', '\''], some []⟩ [] 2 true = some [] := by
  have h := paren_not_found_suppressed ')' (by decide) [] ⟨['\'', ')', '\''], some []⟩
    [] 2 [] rfl (by decide) true
  exact ⟨by decide, rfl, by decide, h.1, h.2⟩

/-- The bracket events of a piece of text whose first character has index
`i`, in text order: a bracket glyph at index `j` contributes `(c, j + 1)`.
This is the reference shape of the forward plain-text iterator output, used
to reason about `plainParenScan`. -/
def bracketEvents : List Char → Int → List (Char × Int)
  | [], _ => []
  | c :: rest, i =>
    if c ∈ BRACKS then (c, i + 1) :: bracketEvents rest (i + 1)
    else bracketEvents rest (i + 1)

lemma bracketEvents_append (a b : List Char) (i : Int) :
    bracketEvents (a ++ b) i = bracketEvents a i ++ bracketEvents b (i + a.length) := by
  induction a generalizing i with
  | nil => simp [bracketEvents]
  | cons c rest ih =>
    have harith : i + 1 + (rest.length : Int) = i + ((rest.length : Nat) + 1 : Nat) := by
      push_cast; ring
    by_cases hc : c ∈ BRACKS <;>
      simp [bracketEvents, hc, ih (i + 1), harith]

lemma bracketEvents_nil (i : Int) : bracketEvents [] i = [] := rfl

lemma bracketEvents_cons_mem {c : Char} (hb : c ∈ BRACKS) (rest : List Char) (i : Int) :
    bracketEvents (c :: rest) i = (c, i + 1) :: bracketEvents rest (i + 1) := by
  simp [bracketEvents, hb]

lemma bracketEvents_cons_not_mem {c : Char} (hb : c ∉ BRACKS) (rest : List Char) (i : Int) :
    bracketEvents (c :: rest) i = bracketEvents rest (i + 1) := by
  simp [bracketEvents, hb]

lemma pyGet_in_range {ft : List Char} {i : Nat} (hlt : i < ft.length) :
    pyGet ft i = some (ft.get ⟨i, hlt⟩) := by
  have h1 : ¬((i : Nat) : Int) < -(ft.length : Int) := by omega
  have h2 : ¬((i : Nat) : Int) < 0 := by omega
  simp only [pyGet, if_neg h1, if_neg h2, Int.toNat_natCast]
  exact List.getElem?_eq_getElem hlt

lemma pyGet_past_end {ft : List Char} {i : Nat} (hge : ft.length ≤ i) :
    pyGet ft i = none := by
  have h1 : ¬((i : Nat) : Int) < -(ft.length : Int) := by omega
  have h2 : ¬((i : Nat) : Int) < 0 := by omega
  simp only [pyGet, if_neg h1, if_neg h2, Int.toNat_natCast]
  exact List.getElem?_eq_none hge

lemma plainParenScan_step_bracket {ft : List Char} {direction : Int} {fuel : Nat}
    {p : Int} {c : Char} (hc : pyGet ft p = some c) (hb : c ∈ BRACKS) :
    plainParenScan ft direction (fuel + 1) p =
      (c, p + 1) :: plainParenScan ft direction fuel (p + direction) := by
  simp [plainParenScan, hc, hb]

lemma plainParenScan_step_skip {ft : List Char} {direction : Int} {fuel : Nat}
    {p : Int} {c : Char} (hc : pyGet ft p = some c) (hb : c ∉ BRACKS)
    (hng : ¬p + direction < 0) :
    plainParenScan ft direction (fuel + 1) p =
      plainParenScan ft direction fuel (p + direction) := by
  simp [plainParenScan, hc, hb, hng]

lemma plainParenScan_step_stop {ft : List Char} {direction : Int} {fuel : Nat}
    {p : Int} {c : Char} (hc : pyGet ft p = some c) (hb : c ∉ BRACKS)
    (hng : p + direction < 0) :
    plainParenScan ft direction (fuel + 1) p = [] := by
  simp [plainParenScan, hc, hb, hng]

lemma plainParenScan_step_none {ft : List Char} {direction : Int} {fuel : Nat}
    {p : Int} (hc : pyGet ft p = none) :
    plainParenScan ft direction (fuel + 1) p = [] := by
  simp [plainParenScan, hc]

/-- Forward runs of the plain-text iterator (`direction = 1`) starting at a
non-negative in-text position produce exactly the brackets of the remaining
text, provided the fuel covers the remaining examinations: in particular the
fuel bound baked into `plainTextParenEvents` is irrelevant. -/
lemma plainParenScan_fwd_eq (ft : List Char) :
    ∀ (fuel : Nat) (i : Nat), ft.length - i + 1 ≤ fuel →
      plainParenScan ft 1 fuel i = bracketEvents (ft.drop i) i := by
  intro fuel
  induction fuel with
  | zero => intro i hi; omega
  | succ fuel ih =>
    intro i hi
    have hcast : ((i : Nat) : Int) + 1 = ((i + 1 : Nat) : Int) := by push_cast; ring
    by_cases hlt : i < ft.length
    · have hdrop : ft.drop i = ft.get ⟨i, hlt⟩ :: ft.drop (i + 1) :=
        List.drop_eq_getElem_cons hlt
      by_cases hb : ft.get ⟨i, hlt⟩ ∈ BRACKS
      · rw [plainParenScan_step_bracket (pyGet_in_range hlt) hb, hcast,
          ih (i + 1) (by omega), hdrop, bracketEvents_cons_mem hb, hcast]
      · rw [plainParenScan_step_skip (pyGet_in_range hlt) hb (by omega), hcast,
          ih (i + 1) (by omega), hdrop, bracketEvents_cons_not_mem hb, hcast]
    · rw [plainParenScan_step_none (pyGet_past_end (by omega)),
        List.drop_eq_nil_of_le (by omega)]
      rfl

/-- Backward runs of the plain-text iterator (`direction = -1`) starting at
an in-text position `p` produce the brackets of the text prefix up to and
including index `p`, in reverse order, followed by a (possibly empty) tail
of wrap-around events caused by Python negative indexing. -/
lemma plainParenScan_bwd_eq (ft : List Char) :
    ∀ (p : Nat) (fuel : Nat), p + 2 ≤ fuel → p < ft.length →
      ∃ g, plainParenScan ft (-1) fuel p =
        (bracketEvents (ft.take (p + 1)) 0).reverse ++ g := by
  intro p
  induction p with
  | zero =>
    intro fuel hfuel hlt
    obtain ⟨f, rfl⟩ : ∃ f, fuel = f + 1 := ⟨fuel - 1, by omega⟩
    obtain ⟨x, rest, rfl⟩ : ∃ x rest, ft = x :: rest := by
      cases ft with
      | nil => simp at hlt
      | cons x rest => exact ⟨x, rest, rfl⟩
    have hget : pyGet (x :: rest) ((0 : Nat) : Int) = some x := pyGet_in_range hlt
    by_cases hb : x ∈ BRACKS
    · refine ⟨plainParenScan (x :: rest) (-1) f (((0 : Nat) : Int) + -1), ?_⟩
      rw [plainParenScan_step_bracket hget hb]
      simp [List.take_succ_cons, bracketEvents, hb]
    · refine ⟨[], ?_⟩
      rw [plainParenScan_step_stop hget hb (by omega)]
      simp [List.take_succ_cons, bracketEvents, hb]
  | succ p ih =>
    intro fuel hfuel hlt
    obtain ⟨f, rfl⟩ : ∃ f, fuel = f + 1 := ⟨fuel - 1, by omega⟩
    have hget : pyGet ft ((p + 1 : Nat) : Int) = some (ft.get ⟨p + 1, hlt⟩) :=
      pyGet_in_range hlt
    have htake : ft.take (p + 1 + 1) = ft.take (p + 1) ++ [ft.get ⟨p + 1, hlt⟩] := by
      rw [List.take_succ, List.getElem?_eq_getElem hlt]
      rfl
    have hlen : ((ft.take (p + 1)).length : Int) = ((p + 1 : Nat) : Int) := by
      simp [List.length_take]
      omega
    have harith : ((p + 1 : Nat) : Int) + -1 = ((p : Nat) : Int) := by push_cast; ring
    obtain ⟨g, hg⟩ := ih f (by omega) (by omega)
    by_cases hb : ft.get ⟨p + 1, hlt⟩ ∈ BRACKS
    · refine ⟨g, ?_⟩
      rw [plainParenScan_step_bracket hget hb, harith, hg, htake,
        bracketEvents_append, hlen]
      simp only [bracketEvents, hb, if_pos, List.reverse_append, List.reverse_cons,
        List.reverse_nil, List.nil_append, List.cons_append, List.append_assoc,
        List.singleton_append]
      rw [zero_add]
    · refine ⟨g, ?_⟩
      rw [plainParenScan_step_skip hget hb (by omega), harith, hg, htake,
        bracketEvents_append, hlen]
      rw [show bracketEvents [ft.get ⟨p + 1, hlt⟩] (0 + ((p + 1 : Nat) : Int)) = [] by
        rw [bracketEvents_cons_not_mem hb, bracketEvents_nil], List.append_nil]

/-- BalancedText text: arbitrary non-bracket characters, and bracket glyphs
occurring only as properly nested partner pairs. -/
inductive BalancedText : List Char → Prop where
  | nil : BalancedText []
  | cons_non {c : Char} (hc : c ∉ BRACKS) {t : List Char} (ht : BalancedText t) :
      BalancedText (c :: t)
  | wrap {o : Char} (ho : o ∈ BRACKS_OPEN) {inner t : List Char}
      (hi : BalancedText inner) (ht : BalancedText t) :
      BalancedText (o :: inner ++ [matchingBrackets o] ++ t)
lemma scanLoop_step_stacking {stacking unstacking : List Char} {paren : Char}
    (hp : paren ∈ stacking) (pos : Int) (stack rest : List (Char × Int)) :
    scanLoop stacking unstacking stack ((paren, pos) :: rest) =
      scanLoop stacking unstacking ((paren, pos) :: stack) rest := by
  simp [scanLoop, hp]

lemma scanLoop_step_pop {stacking unstacking : List Char} {paren c : Char}
    (hp1 : paren ∉ stacking) (hp2 : paren ∈ unstacking) (hm : matchingBrackets c = paren)
    (pos p : Int) {s : List (Char × Int)} (hs : s ≠ []) (rest : List (Char × Int)) :
    scanLoop stacking unstacking ((c, p) :: s) ((paren, pos) :: rest) =
      scanLoop stacking unstacking s rest := by
  simp [scanLoop, hp1, hp2, hm, hs]

/-- Scanning forward over the events of a balanced text neither disturbs the
surrounding stack nor ends the scan: every push is cancelled by the matching
pop and the stack never empties in between. -/
lemma scanLoop_balanced_fwd {body : List Char} (h : BalancedText body) :
    ∀ (i : Int) (stack rest : List (Char × Int)), stack ≠ [] →
      scanLoop BRACKS_OPEN BRACKS_CLOSE stack (bracketEvents body i ++ rest) =
        scanLoop BRACKS_OPEN BRACKS_CLOSE stack rest := by
  induction h with
  | nil => intro i stack rest _; simp [bracketEvents]
  | cons_non hc _ ih =>
    intro i stack rest hs
    simpa [bracketEvents, hc] using ih (i + 1) stack rest hs
  | @wrap o ho inner t _ _ ih_inner ih_t =>
    intro i stack rest hs
    obtain ⟨hcl, hclno, _, _, hob⟩ := open_bracket_facts ho
    have hclb : matchingBrackets o ∈ BRACKS := by simp [BRACKS, hcl]
    rw [bracketEvents_append, bracketEvents_append, bracketEvents_cons_mem hob,
      bracketEvents_cons_mem hclb, bracketEvents_nil]
    simp only [List.cons_append, List.append_assoc, List.nil_append,
      List.singleton_append]
    rw [scanLoop_step_stacking ho]
    rw [ih_inner _ _ _ (List.cons_ne_nil _ _)]
    rw [scanLoop_step_pop hclno hcl rfl _ _ hs]
    exact ih_t _ stack rest hs

/-- Scanning backward over the reversed events of a balanced text neither
disturbs the surrounding stack nor ends the scan. -/
lemma scanLoop_balanced_bwd {body : List Char} (h : BalancedText body) :
    ∀ (i : Int) (stack rest : List (Char × Int)), stack ≠ [] →
      scanLoop BRACKS_CLOSE BRACKS_OPEN stack ((bracketEvents body i).reverse ++ rest) =
        scanLoop BRACKS_CLOSE BRACKS_OPEN stack rest := by
  induction h with
  | nil => intro i stack rest _; simp [bracketEvents]
  | cons_non hc _ ih =>
    intro i stack rest hs
    simpa [bracketEvents, hc] using ih (i + 1) stack rest hs
  | @wrap o ho inner t _ _ ih_inner ih_t =>
    intro i stack rest hs
    obtain ⟨hcl, hclno, hocl, hmm, hob⟩ := open_bracket_facts ho
    have hclb : matchingBrackets o ∈ BRACKS := by simp [BRACKS, hcl]
    rw [bracketEvents_append, bracketEvents_append, bracketEvents_cons_mem hob,
      bracketEvents_cons_mem hclb, bracketEvents_nil]
    simp only [List.reverse_append, List.reverse_cons, List.reverse_nil,
      List.nil_append, List.append_assoc, List.singleton_append, List.cons_append]
    rw [ih_t _ stack _ hs]
    rw [scanLoop_step_stacking hcl]
    rw [ih_inner _ _ _ (List.cons_ne_nil _ _)]
    rw [scanLoop_step_pop hocl ho hmm _ _ hs]

/-- The full plain-text query on a well-formed document `"(" ++ body ++ ")"`
with balanced `body`, in both directions; shared by the theorems below. -/
lemma findMatchingBracketPlain_balanced {body : List Char} (h : BalancedText body) :
    findMatchingBracketPlain '(' ('(' :: body ++ [')']) 1 =
      .ok (some { status := .Match, corresponding := some ((body.length : Int) + 2) }) ∧
    findMatchingBracketPlain ')' ('(' :: body ++ [')']) ((body.length : Int) + 2) =
      .ok (some { status := .Match, corresponding := some 1 }) := by
  constructor
  · have hev : plainTextParenEvents ('(' :: body ++ [')']) 1 1 =
        bracketEvents body 1 ++ [(')', (body.length : Int) + 2)] := by
      rw [plainTextParenEvents]
      rw [show (1 : Int) - 1 + 1 = ((1 : Nat) : Int) by norm_num]
      rw [plainParenScan_fwd_eq _ _ 1 (by omega)]
      rw [show ('(' :: body ++ [')']).drop 1 = body ++ [')'] from rfl]
      rw [bracketEvents_append, bracketEvents_cons_mem (by decide) [], bracketEvents_nil]
      rw [show ((1 : Nat) : Int) + (body.length : Int) + 1 = (body.length : Int) + 2 by
        push_cast; ring]
      norm_num
    rw [show findMatchingBracketPlain '(' ('(' :: body ++ [')']) 1 =
        .ok (scanLoop BRACKS_OPEN BRACKS_CLOSE [('(', 1)]
          (plainTextParenEvents ('(' :: body ++ [')']) 1 1)) from rfl]
    rw [hev, scanLoop_balanced_fwd h 1 [('(', 1)] _ (by simp)]
    simp [scanLoop, matchingBrackets, BRACKS_OPEN, BRACKS_CLOSE]
  · have hlen : ('(' :: body ++ [')']).length = body.length + 2 := by simp
    have hnatAbs : ((body.length : Int) + 2).natAbs = body.length + 2 := by
      rw [show (body.length : Int) + 2 = ((body.length + 2 : Nat) : Int) by push_cast; ring]
      exact Int.natAbs_ofNat _
    obtain ⟨g, hg⟩ := plainParenScan_bwd_eq ('(' :: body ++ [')']) body.length
      (2 * ('(' :: body ++ [')']).length + (body.length + 2) + 4) (by omega)
      (by rw [hlen]; omega)
    have hev : plainTextParenEvents ('(' :: body ++ [')']) ((body.length : Int) + 2) (-1) =
        (bracketEvents body 1).reverse ++ (('(', 1) :: g) := by
      rw [plainTextParenEvents, hnatAbs]
      rw [show (body.length : Int) + 2 - 1 + -1 = ((body.length : Nat) : Int) by ring]
      rw [hg]
      rw [show ('(' :: body ++ [')']).take (body.length + 1) = '(' :: body by
        rw [show body.length + 1 = ('(' :: body).length by simp]
        exact List.take_left _ _]
      rw [bracketEvents_cons_mem (by decide) body 0, zero_add, List.reverse_cons,
        List.append_assoc, List.singleton_append]
    rw [show findMatchingBracketPlain ')' ('(' :: body ++ [')']) ((body.length : Int) + 2) =
        .ok (scanLoop BRACKS_CLOSE BRACKS_OPEN [(')', (body.length : Int) + 2)]
          (plainTextParenEvents ('(' :: body ++ [')']) ((body.length : Int) + 2) (-1)))
        from rfl]
    rw [hev, scanLoop_balanced_bwd h 1 [(')', (body.length : Int) + 2)] _ (by simp)]
    simp [scanLoop, matchingBrackets, BRACKS_OPEN, BRACKS_CLOSE]

/-- C1: for every document `"(" ++ body ++ ")"` with balanced `body`,
querying the opening bracket (cursor position `1`) returns `Match` at the
position of the final closing bracket (`body.length + 2`), and querying that
final closing bracket returns `Match` at the position of the opening bracket
(`1`). -/
theorem balanced_document_match {body : List Char} (h : BalancedText body) :
    findMatchingBracketPlain '(' ('(' :: body ++ [')']) 1 =
      .ok (some { status := .Match, corresponding := some ((body.length : Int) + 2) }) ∧
    findMatchingBracketPlain ')' ('(' :: body ++ [')']) ((body.length : Int) + 2) =
      .ok (some { status := .Match, corresponding := some 1 }) :=
  findMatchingBracketPlain_balanced h

/-- Witness for C1: the document `"([])"` — querying `(` at position 1
matches the `)` at position 4, and querying `)` at position 4 matches the
`(` at position 1. -/
theorem balanced_document_match_witness :
    BalancedText ['[', ']'] ∧
    (findMatchingBracketPlain '(' ('(' :: ['[', ']'] ++ [')']) 1 =
      .ok (some { status := .Match, corresponding := some (((['[', ']'] : List Char).length : Int) + 2) }) ∧
    findMatchingBracketPlain ')' ('(' :: ['[', ']'] ++ [')'])
        (((['[', ']'] : List Char).length : Int) + 2) =
      .ok (some { status := .Match, corresponding := some 1 })) :=
  have hb : BalancedText ['[', ']'] :=
    @BalancedText.wrap '[' (by decide) [] [] BalancedText.nil BalancedText.nil
  ⟨hb, balanced_document_match hb⟩

/-- The document `"(" ++ "[]" * n ++ ")"`: its forward scan from the opening
bracket consumes `2 * n + 1` iterator events. -/
def pairsDoc (n : Nat) : List Char := '(' :: (List.replicate n ['[', ']']).flatten ++ [')']

lemma pairsBody_balanced (n : Nat) : BalancedText (List.replicate n ['[', ']']).flatten := by
  induction n with
  | zero => exact BalancedText.nil
  | succ n ih =>
    have h := @BalancedText.wrap '[' (by decide) []
      (List.replicate n ['[', ']']).flatten BalancedText.nil ih
    simpa [matchingBrackets, List.replicate_succ] using h

lemma pairsBody_length (n : Nat) : (List.replicate n ['[', ']']).flatten.length = 2 * n := by
  induction n with
  | zero => rfl
  | succ n ih => simp [List.replicate_succ, ih]; ring

lemma pairsBody_all_bracket (n : Nat) :
    ∀ c ∈ (List.replicate n ['[', ']']).flatten, c ∈ BRACKS := by
  induction n with
  | zero => simp
  | succ n ih =>
    intro c hc
    simp only [List.replicate_succ, List.flatten_cons, List.mem_append] at hc
    rcases hc with hc | hc
    · simp only [List.mem_cons, List.not_mem_nil, or_false] at hc
      rcases hc with rfl | rfl <;> decide
    · exact ih c hc

lemma bracketEvents_length_all {l : List Char} (h : ∀ c ∈ l, c ∈ BRACKS) (i : Int) :
    (bracketEvents l i).length = l.length := by
  induction l generalizing i with
  | nil => rfl
  | cons c rest ih =>
    rw [bracketEvents_cons_mem (h c (List.mem_cons_self c rest)) rest i]
    simp [ih (fun x hx => h x (List.mem_cons_of_mem c hx)) (i + 1)]

/-- The result of the pairs-document query, for every `n`. -/
lemma pairsDoc_result (n : Nat) :
    findMatchingBracketPlain '(' (pairsDoc n) 1 =
      .ok (some { status := .Match, corresponding := some (2 * (n : Int) + 2) }) := by
  have h := (findMatchingBracketPlain_balanced (pairsBody_balanced n)).1
  rw [show ((((List.replicate n ['[', ']']).flatten).length : Int) + 2) = 2 * (n : Int) + 2 by
    rw [pairsBody_length]; push_cast; ring] at h
  exact h

/-- C4 counterexample: the scan of `pairsDoc 300` from its opening bracket
consumes `601 > 500` iterator events, yet the query's result is a `Match`,
not `NoMatch` — there is no 500-step iteration cap in
`_findMatchingBracket`. -/
theorem no_iteration_cap_counterexample :
    500 < (plainTextParenEvents (pairsDoc 300) 1 1).length ∧
    findMatchingBracketPlain '(' (pairsDoc 300) 1 ≠
      .ok (some { status := .NoMatch }) := by
  constructor
  · have hev : plainTextParenEvents (pairsDoc 300) 1 1 =
        bracketEvents ((pairsDoc 300).drop 1) 1 := by
      rw [plainTextParenEvents]
      rw [show (1 : Int) - 1 + 1 = ((1 : Nat) : Int) by norm_num]
      exact plainParenScan_fwd_eq _ _ 1 (by omega)
    rw [hev, bracketEvents_length_all]
    · rw [show (pairsDoc 300).drop 1 = (List.replicate 300 ['[', ']']).flatten ++ [')']
        from rfl]
      rw [List.length_append, pairsBody_length]
      norm_num
    · intro c hc
      rw [show (pairsDoc 300).drop 1 = (List.replicate 300 ['[', ']']).flatten ++ [')']
        from rfl] at hc
      rcases List.mem_append.mp hc with hc | hc
      · exact pairsBody_all_bracket 300 c hc
      · simp only [List.mem_cons, List.not_mem_nil, or_false] at hc
        subst hc; decide
  · rw [pairsDoc_result 300]
    intro hcontra
    simp at hcontra

lemma pyGet_ge_len {ft : List Char} {p : Int} (h : (ft.length : Int) ≤ p) :
    pyGet ft p = none := by
  have h1 : ¬p < -(ft.length : Int) := by omega
  have h2 : ¬p < 0 := by omega
  simp only [pyGet, if_neg h1, if_neg h2]
  exact List.getElem?_eq_none (by omega)

lemma pyGet_lt_neg_len {ft : List Char} {p : Int} (h : p < -(ft.length : Int)) :
    pyGet ft p = none := by
  simp only [pyGet, if_pos h]

lemma plainParenScan_fuel_mono_fwd (ft : List Char) :
    ∀ (fuel : Nat) (p : Int), (ft.length : Int) - p + 1 ≤ fuel →
      plainParenScan ft 1 (fuel + 1) p = plainParenScan ft 1 fuel p := by
  intro fuel
  induction fuel with
  | zero =>
    intro p hp
    rw [plainParenScan_step_none (pyGet_ge_len (by omega))]
    rfl
  | succ fuel ih =>
    intro p hp
    match hg : pyGet ft p with
    | none => rw [plainParenScan_step_none hg, plainParenScan_step_none hg]
    | some c =>
      by_cases hb : c ∈ BRACKS
      · rw [plainParenScan_step_bracket hg hb, plainParenScan_step_bracket hg hb,
          ih (p + 1) (by omega)]
      · by_cases hng : p + 1 < 0
        · rw [plainParenScan_step_stop hg hb hng, plainParenScan_step_stop hg hb hng]
        · rw [plainParenScan_step_skip hg hb hng, plainParenScan_step_skip hg hb hng,
            ih (p + 1) (by omega)]

lemma plainParenScan_fuel_mono_bwd (ft : List Char) :
    ∀ (fuel : Nat) (p : Int), p + (ft.length : Int) + 2 ≤ fuel →
      plainParenScan ft (-1) (fuel + 1) p = plainParenScan ft (-1) fuel p := by
  intro fuel
  induction fuel with
  | zero =>
    intro p hp
    rw [plainParenScan_step_none (pyGet_lt_neg_len (by omega))]
    rfl
  | succ fuel ih =>
    intro p hp
    match hg : pyGet ft p with
    | none => rw [plainParenScan_step_none hg, plainParenScan_step_none hg]
    | some c =>
      by_cases hb : c ∈ BRACKS
      · rw [plainParenScan_step_bracket hg hb, plainParenScan_step_bracket hg hb,
          ih (p + -1) (by omega)]
      · by_cases hng : p + -1 < 0
        · rw [plainParenScan_step_stop hg hb hng, plainParenScan_step_stop hg hb hng]
        · rw [plainParenScan_step_skip hg hb hng, plainParenScan_step_skip hg hb hng,
            ih (p + -1) (by omega)]

/-- The fuel of a forward run is irrelevant once it covers the walk to the
end of the text. -/
lemma plainParenScan_fuel_stable_fwd (ft : List Char) (p : Int) :
    ∀ (k fuel : Nat), (ft.length : Int) - p + 1 ≤ fuel →
      plainParenScan ft 1 (fuel + k) p = plainParenScan ft 1 fuel p := by
  intro k
  induction k with
  | zero => intro fuel _; rfl
  | succ k ih =>
    intro fuel hfuel
    rw [show fuel + (k + 1) = (fuel + k) + 1 by ring,
      plainParenScan_fuel_mono_fwd ft (fuel + k) p (by omega), ih fuel hfuel]

/-- The fuel of a backward run is irrelevant once it covers the walk past
the negative-index range. -/
lemma plainParenScan_fuel_stable_bwd (ft : List Char) (p : Int) :
    ∀ (k fuel : Nat), p + (ft.length : Int) + 2 ≤ fuel →
      plainParenScan ft (-1) (fuel + k) p = plainParenScan ft (-1) fuel p := by
  intro k
  induction k with
  | zero => intro fuel _; rfl
  | succ k ih =>
    intro fuel hfuel
    rw [show fuel + (k + 1) = (fuel + k) + 1 by ring,
      plainParenScan_fuel_mono_bwd ft (fuel + k) p (by omega), ih fuel hfuel]

/-- The stack contents after the scan loop has processed a prefix of events
without returning: pushes for stacking characters, pops for unstacking ones,
no change otherwise.  Used to state what "the top of the stack at that
moment" is in the safety theorem below. -/
def stackRun (stacking unstacking : List Char) :
    List (Char × Int) → List (Char × Int) → List (Char × Int)
  | stack, [] => stack
  | stack, (paren, _pos) :: rest =>
    if paren ∈ stacking then stackRun stacking unstacking ((paren, _pos) :: stack) rest
    else if paren ∈ unstacking then stackRun stacking unstacking stack.tail rest
    else stackRun stacking unstacking stack rest

lemma stackRun_nil (stacking unstacking : List Char) (stack : List (Char × Int)) :
    stackRun stacking unstacking stack [] = stack := rfl

lemma stackRun_cons_stacking {stacking unstacking : List Char} {paren : Char}
    (h : paren ∈ stacking) (pos : Int) (stack rest : List (Char × Int)) :
    stackRun stacking unstacking stack ((paren, pos) :: rest) =
      stackRun stacking unstacking ((paren, pos) :: stack) rest := by
  simp [stackRun, h]

lemma stackRun_cons_unstacking {stacking unstacking : List Char} {paren : Char}
    (h1 : paren ∉ stacking) (h2 : paren ∈ unstacking) (pos : Int)
    (stack rest : List (Char × Int)) :
    stackRun stacking unstacking stack ((paren, pos) :: rest) =
      stackRun stacking unstacking stack.tail rest := by
  simp [stackRun, h1, h2]

lemma stackRun_cons_other {stacking unstacking : List Char} {paren : Char}
    (h1 : paren ∉ stacking) (h2 : paren ∉ unstacking) (pos : Int)
    (stack rest : List (Char × Int)) :
    stackRun stacking unstacking stack ((paren, pos) :: rest) =
      stackRun stacking unstacking stack rest := by
  simp [stackRun, h1, h2]

/-- C10: started on a non-empty stack the scan loop never reads the top of
an empty stack (the result is never the `IndexError` value `none`), because
the stack is non-empty at the start of every iteration: whenever a pop
empties it the loop returns `Match` before the next event is processed.
Moreover every returned `Match` with corresponding position `p` arises from
an event `(paren, p)` of the unstacking set such that the stack at that
moment consisted of exactly one entry`(c, cp)` whose character `c` is the
exact partner of `paren`. -/
theorem scanLoop_stack_safety (stacking unstacking : List Char) :
    ∀ (events stack : List (Char × Int)), stack ≠ [] →
      (scanLoop stacking unstacking stack events).isSome = true ∧
      (∀ r p, scanLoop stacking unstacking stack events = some r →
        r.status = .Match → r.corresponding = some p →
        ∃ pre paren rest c cp, events = pre ++ (paren, p) :: rest ∧
          paren ∈ unstacking ∧ paren ∉ stacking ∧
          stackRun stacking unstacking stack pre = [(c, cp)] ∧
          matchingBrackets c = paren) := by
  intro events
  induction events with
  | nil =>
    intro stack _
    refine ⟨rfl, ?_⟩
    intro r p hr hst _
    rw [show scanLoop stacking unstacking stack [] = some { status := .NoMatch }
      from rfl] at hr
    cases hr
    simp at hst
  | cons ev rest ih =>
    obtain ⟨paren, pos⟩ := ev
    intro stack hs
    by_cases h1 : paren ∈ stacking
    · rw [scanLoop_step_stacking h1]
      obtain ⟨ihs, ihm⟩ := ih ((paren, pos) :: stack) (List.cons_ne_nil _ _)
      refine ⟨ihs, ?_⟩
      intro r p hr hst hc
      obtain ⟨pre, paren', rest', c, cp, heq, hu, hnst, hrun, hm⟩ := ihm r p hr hst hc
      refine ⟨(paren, pos) :: pre, paren', rest', c, cp, by rw [heq]; rfl, hu, hnst, ?_, hm⟩
      rw [stackRun_cons_stacking h1]
      exact hrun
    · by_cases h2 : paren ∈ unstacking
      · obtain ⟨⟨c0, p0⟩, s, rfl⟩ : ∃ x s, stack = x :: s := by
          cases stack with
          | nil => exact absurd rfl hs
          | cons x s => exact ⟨x, s, rfl⟩
        by_cases h3 : matchingBrackets c0 = paren
        · by_cases h4 : s = []
          · subst h4
            have hstep : scanLoop stacking unstacking [(c0, p0)] ((paren, pos) :: rest) =
                some { status := .Match, corresponding := some pos } := by
              simp [scanLoop, h1, h2, h3]
            refine ⟨by rw [hstep]; rfl, ?_⟩
            intro r p hr _ hc
            rw [hstep] at hr
            cases hr
            simp only [Option.some.injEq] at hc
            subst hc
            exact ⟨[], paren, rest, c0, p0, rfl, h2, h1, rfl, h3⟩
          · rw [scanLoop_step_pop h1 h2 h3 pos p0 h4 rest]
            obtain ⟨ihs, ihm⟩ := ih s h4
            refine ⟨ihs, ?_⟩
            intro r p hr hst hc
            obtain ⟨pre, paren', rest', c, cp, heq, hu, hnst, hrun, hm⟩ := ihm r p hr hst hc
            refine ⟨(paren, pos) :: pre, paren', rest', c, cp, by rw [heq]; rfl,
              hu, hnst, ?_, hm⟩
            rw [stackRun_cons_unstacking h1 h2]
            exact hrun
        · have hstep : scanLoop stacking unstacking ((c0, p0) :: s) ((paren, pos) :: rest) =
              some { status := .MisMatch, corresponding := some pos, offending := some p0 } := by
            simp [scanLoop, h1, h2, h3]
          refine ⟨by rw [hstep]; rfl, ?_⟩
          intro r p hr hst _
          rw [hstep] at hr
          cases hr
          simp at hst
      · have hstep : scanLoop stacking unstacking stack ((paren, pos) :: rest) =
            scanLoop stacking unstacking stack rest := by
          simp [scanLoop, h1, h2, hs]
        rw [hstep]
        obtain ⟨ihs, ihm⟩ := ih stack hs
        refine ⟨ihs, ?_⟩
        intro r p hr hst hc
        obtain ⟨pre, paren', rest', c, cp, heq, hu, hnst, hrun, hm⟩ := ihm r p hr hst hc
        refine ⟨(paren, pos) :: pre, paren', rest', c, cp, by rw [heq]; rfl,
          hu, hnst, ?_, hm⟩
        rw [stackRun_cons_other h1 h2]
        exact hrun

/-- Witness for C10: the configuration reached when querying `(` in `"()"`:
stack `[('(', 1)]`, remaining events `[(')', 2)]`. -/
theorem scanLoop_stack_safety_witness :
    (([('(', 1)] : List (Char × Int)) ≠ []) ∧
    ((scanLoop BRACKS_OPEN BRACKS_CLOSE [('(', 1)] [(')', 2)]).isSome = true ∧
      (∀ r p, scanLoop BRACKS_OPEN BRACKS_CLOSE [('(', 1)] [(')', 2)] = some r →
        r.status = .Match → r.corresponding = some p →
        ∃ pre paren rest c cp, ([((')' : Char), (2 : Int))] : List (Char × Int)) =
            pre ++ (paren, p) :: rest ∧
          paren ∈ BRACKS_CLOSE ∧ paren ∉ BRACKS_OPEN ∧
          stackRun BRACKS_OPEN BRACKS_CLOSE [('(', 1)] pre = [(c, cp)] ∧
          matchingBrackets c = paren)) :=
  ⟨by decide, scanLoop_stack_safety BRACKS_OPEN BRACKS_CLOSE [(')', 2)] [('(', 1)]
    (by decide)⟩

lemma pairsDoc_events_length (n : Nat) :
    (plainTextParenEvents (pairsDoc n) 1 1).length = 2 * n + 1 := by
  have hev : plainTextParenEvents (pairsDoc n) 1 1 =
      bracketEvents ((pairsDoc n).drop 1) 1 := by
    rw [plainTextParenEvents]
    rw [show (1 : Int) - 1 + 1 = ((1 : Nat) : Int) by norm_num]
    exact plainParenScan_fwd_eq _ _ 1 (by omega)
  rw [hev, bracketEvents_length_all]
  · rw [show (pairsDoc n).drop 1 = (List.replicate n ['[', ']']).flatten ++ [')']
      from rfl]
    rw [List.length_append, pairsBody_length]
    simp
  · intro c hc
    rw [show (pairsDoc n).drop 1 = (List.replicate n ['[', ']']).flatten ++ [')']
      from rfl] at hc
    rcases List.mem_append.mp hc with hc | hc
    · exact pairsBody_all_bracket n c hc
    · simp only [List.mem_cons, List.not_mem_nil, or_false] at hc
      subst hc; decide

/-- C4 (amended): the scan loop of `_findMatchingBracket` has no iteration
cap.  For every `n`, the query on `"(" ++ "[]" * n ++ ")"` makes the
iterator produce `2 * n + 1` events — unbounded, in particular beyond 500 —
and the scan processes them all the way to its true `Match` result; the loop
terminates because the iterator sequence is finite, not because of any
defensive step bound. -/
theorem no_iteration_cap (n : Nat) :
    (plainTextParenEvents (pairsDoc n) 1 1).length = 2 * n + 1 ∧
    findMatchingBracketPlain '(' (pairsDoc n) 1 =
      .ok (some { status := .Match, corresponding := some (2 * (n : Int) + 2) }) :=
  ⟨pairsDoc_events_length n, pairsDoc_result n⟩
